import Mathlib

/-!
Verification of the CAS extension and `Clear` of the generic sync-map
(`CasMap.CompareAndSwap`, `CasMap.CompareAndDelete`,
`casEntry.tryCompareAndSwap`, `Map.Clear`).

The per-entry atomic pointer is modelled by `Ptr`: `null` and `expunged`
are the two sentinel states, and `node i v` is a valid pointer with
address identity `i` and pointee `v`.  Atomic compare-and-swap compares
pointer identity, i.e. full `Ptr` equality.

Lock-free loops are embedded with an explicit interference schedule: a
`List (Option (Ptr V))` giving, for each successive atomic operation the
loop performs on the entry, the write (if any) a concurrent actor
performed just before that operation.  A result of `none` means the
schedule was exhausted before the loop returned.  Map-level operations
are embedded sequentially (no interference between their internal
steps), threading an explicit `MapState`.
-/

namespace SyncMap

/-- State of an entry's atomic pointer `p`: `nil`, the `expunged`
sentinel, or a valid pointer with address identity `i` to value `v`. -/
inductive Ptr (V : Type) where
  | null
  | expunged
  | node (i : Nat) (v : V)
deriving DecidableEq

variable {K V : Type} [DecidableEq K] [DecidableEq V]

/-- Pointee of a pointer: `some v` for a valid pointer, `none` for the
`nil` and `expunged` sentinels. -/
def pointee : Ptr V → Option V
  | .node _ v => some v
  | _ => none

/-- Apply one slot of the interference schedule: `none` leaves the cell
unchanged, `some p` is a concurrent write of `p` into the cell. -/
def interfere (cur : Ptr V) : Option (Ptr V) → Ptr V
  | none => cur
  | some p => p

/-- Cell contents after a run of interference writes, with no write by
the operation under study. -/
def applyWrites (cur : Ptr V) : List (Option (Ptr V)) → Ptr V
  | [] => cur
  | w :: rest => applyWrites (interfere cur w) rest

/-- The successive cell contents observed at each atomic operation of a
loop that itself performs no write: one entry per schedule slot. -/
def obsStates (cur : Ptr V) : List (Option (Ptr V)) → List (Ptr V)
  | [] => []
  | w :: rest => interfere cur w :: obsStates (interfere cur w) rest

/-- Result of an entry-level lock-free loop: `res` is `some b` when the
loop returned `b` and `none` when the schedule ran out first; `ptr` is
the final cell contents; `used` is the number of schedule slots (atomic
operations) consumed. -/
structure TcasResult (V : Type) where
  res : Option Bool
  ptr : Ptr V
  used : Nat
deriving DecidableEq

/-- Retry loop of `casEntry.tryCompareAndSwap`, translated from the
source: attempt `CompareAndSwapPointer(&e.p, ptr, ncPtr)` (succeeds iff
the cell still equals the observed pointer `obs`); on success return
true; on failure re-load `p`, return false if `nil`/`expunged` or the
pointee differs from `old`, otherwise retry with the re-loaded
pointer. -/
def tcasLoop (old : V) (ncPtr : Ptr V) (obs cur : Ptr V) :
    List (Option (Ptr V)) → TcasResult V
  | [] => ⟨none, cur, 0⟩
  | [w] =>
    let c := interfere cur w
    if c = obs then ⟨some true, ncPtr, 1⟩ else ⟨none, c, 1⟩
  | w :: w2 :: rest =>
    let c := interfere cur w
    if c = obs then ⟨some true, ncPtr, 1⟩
    else
      let c2 := interfere c w2
      match c2 with
      | .null => ⟨some false, c2, 2⟩
      | .expunged => ⟨some false, c2, 2⟩
      | .node i v =>
        if v = old then
          let r := tcasLoop old ncPtr (Ptr.node i v) (Ptr.node i v) rest
          ⟨r.res, r.ptr, r.used + 2⟩
        else ⟨some false, c2, 2⟩

/-- Translation of `casEntry.tryCompareAndSwap` from the source:
atomic-load `p`; return false on `nil`/`expunged`; return false when
the pointee differs from `old`; otherwise copy `new` into fresh stable
storage (address `ncId`) and enter the CAS retry loop. -/
def tryCompareAndSwap (old nu : V) (ncId : Nat) (cur : Ptr V) :
    List (Option (Ptr V)) → TcasResult V
  | [] => ⟨none, cur, 0⟩
  | w :: rest =>
    let c := interfere cur w
    match c with
    | .null => ⟨some false, c, 1⟩
    | .expunged => ⟨some false, c, 1⟩
    | .node i v =>
      if v = old then
        let r := tcasLoop old (Ptr.node ncId nu) (Ptr.node i v) (Ptr.node i v) rest
        ⟨r.res, r.ptr, r.used + 1⟩
      else ⟨some false, c, 1⟩

/-- Specification-side observation step (spec, steps 1, 2 and 4 of the
per-entry CAS primitive): a loaded pointer can be swapped only when it
is neither `nil` nor `expunged` and its pointee equals `old`; in that
case the loaded pointer itself is the one to CAS against. -/
def casObserve (old : V) : Ptr V → Option (Ptr V)
  | .null => none
  | .expunged => none
  | .node i v => if v = old then some (Ptr.node i v) else none

/-- Loop of the per-entry CAS primitive as worded by the spec, step 3
and step 4: CAS `p` from the observed pointer to the new storage; on
success return true; on failure re-load and re-validate via
`casObserve`, returning false when validation fails and retrying the
CAS otherwise. -/
def tryCasSpecLoop (old : V) (ncPtr : Ptr V) (obs cur : Ptr V) :
    List (Option (Ptr V)) → TcasResult V
  | [] => ⟨none, cur, 0⟩
  | [w] =>
    let c := interfere cur w
    if c = obs then ⟨some true, ncPtr, 1⟩ else ⟨none, c, 1⟩
  | w :: w2 :: rest =>
    let c := interfere cur w
    if c = obs then ⟨some true, ncPtr, 1⟩
    else
      let c2 := interfere c w2
      match casObserve old c2 with
      | none => ⟨some false, c2, 2⟩
      | some obs2 =>
        let r := tryCasSpecLoop old ncPtr obs2 c2 rest
        ⟨r.res, r.ptr, r.used + 2⟩

/-- Per-entry CAS primitive `try_cas(old, new)` as worded by the spec:
1. atomic-load `p`, returning false on `nil`/`expunged`; 2. return
false when the pointee differs from `old`; 3. allocate stable storage
for `new` and CAS from the observed pointer; 4. on failure re-load,
re-validate and retry. -/
def tryCasSpec (old nu : V) (ncId : Nat) (cur : Ptr V) :
    List (Option (Ptr V)) → TcasResult V
  | [] => ⟨none, cur, 0⟩
  | w :: rest =>
    let c := interfere cur w
    match casObserve old c with
    | none => ⟨some false, c, 1⟩
    | some obs =>
      let r := tryCasSpecLoop old (Ptr.node ncId nu) obs c rest
      ⟨r.res, r.ptr, r.used + 1⟩

/-- Loop of `CasMap.CompareAndDelete`, translated from the source
(`for ok { ... }` body): atomic-load `ptr`; return false on
`nil`/`expunged`; return false when the pointee differs from `old`;
otherwise `CompareAndSwapPointer(&e.p, ptr, nil)`, returning true on
success and retrying the whole loop on failure. -/
def cadLoop (old : V) (cur : Ptr V) : List (Option (Ptr V)) → TcasResult V
  | [] => ⟨none, cur, 0⟩
  | [w] =>
    let c := interfere cur w
    match c with
    | .null => ⟨some false, c, 1⟩
    | .expunged => ⟨some false, c, 1⟩
    | .node _ v => if v = old then ⟨none, c, 1⟩ else ⟨some false, c, 1⟩
  | w :: w2 :: rest =>
    let c := interfere cur w
    match c with
    | .null => ⟨some false, c, 1⟩
    | .expunged => ⟨some false, c, 1⟩
    | .node i v =>
      if v = old then
        let c2 := interfere c w2
        if c2 = Ptr.node i v then ⟨some true, Ptr.null, 2⟩
        else
          let r := cadLoop old c2 rest
          ⟨r.res, r.ptr, r.used + 2⟩
      else ⟨some false, c, 1⟩

/-- Compare-and-delete loop as worded by the spec and the claim:
atomically load the pointer; if `nil` or `expunged`, return false; if
the pointee is unequal to `old`, return false; otherwise CAS the
pointer from the observed value to `nil`, returning true on success and
retrying on failure. -/
def cadLoopSpec (old : V) (cur : Ptr V) : List (Option (Ptr V)) → TcasResult V
  | [] => ⟨none, cur, 0⟩
  | [w] =>
    let c := interfere cur w
    match casObserve old c with
    | none => ⟨some false, c, 1⟩
    | some _ => ⟨none, c, 1⟩
  | w :: w2 :: rest =>
    let c := interfere cur w
    match casObserve old c with
    | none => ⟨some false, c, 1⟩
    | some obs =>
      let c2 := interfere c w2
      if c2 = obs then ⟨some true, Ptr.null, 2⟩
      else
        let r := cadLoopSpec old c2 rest
        ⟨r.res, r.ptr, r.used + 2⟩

/-- Sequential (interference-free) run of the `tryCompareAndSwap` body:
the initial load observes `cur` and, when validation passes, the first
CAS attempt succeeds.  Returns the result and the final cell
contents. -/
def tryCasSeq (old nu : V) (ncId : Nat) (cur : Ptr V) : Bool × Ptr V :=
  match cur with
  | .null => (false, cur)
  | .expunged => (false, cur)
  | .node _ v => if v = old then (true, Ptr.node ncId nu) else (false, cur)

/-- Sequential (interference-free) run of the `CompareAndDelete` loop
body: the load observes `cur` and, when validation passes, the CAS to
`nil` succeeds. -/
def cadSeq (old : V) (cur : Ptr V) : Bool × Ptr V :=
  match cur with
  | .null => (false, cur)
  | .expunged => (false, cur)
  | .node _ v => if v = old then (true, Ptr.null) else (false, cur)

/-- Published read view: an immutable snapshot mapping keys to entry
identities, plus the `amended` flag (translated from `readOnly`). -/
structure ReadOnly (K : Type) where
  m : List (K × Nat)
  amended : Bool
deriving DecidableEq

/-- Sequential state of the map: the published read view, the dirty
view, the `misses` counter, the entry heap (entry identity to current
pointer), a fresh-address counter for value allocations, and a ghost
count of mutex acquisitions (incremented exactly where the source calls
`m.mu.Lock()`). -/
structure MapState (K V : Type) where
  read : ReadOnly K
  dirty : List (K × Nat)
  misses : Nat
  heap : Nat → Ptr V
  nextId : Nat
  locks : Nat

/-- Association-list lookup standing in for the host hash map's `get`. -/
def lookup (k : K) : List (K × Nat) → Option Nat
  | [] => none
  | (k', e) :: rest => if k' = k then some e else lookup k rest

/-- Point update of the entry heap. -/
def updateHeap (h : Nat → Ptr V) (e : Nat) (p : Ptr V) : Nat → Ptr V :=
  fun j => if j = e then p else h j

/-- Ghost effect of `m.mu.Lock()`: bumps the mutex-acquisition counter
and changes nothing else. -/
def lock (st : MapState K V) : MapState K V :=
  { st with locks := st.locks + 1 }

/-- Modelled from the spec: `miss_locked()` of the base map, which is
not among the provided source files.  Mutex held: increment `misses`;
when `misses` has reached the size of the dirty view, promote — publish
the dirty view as the new read view with `amended = false`, empty the
dirty view, and reset `misses` to 0. -/
def missLocked (st : MapState K V) : MapState K V :=
  if st.misses + 1 < st.dirty.length then { st with misses := st.misses + 1 }
  else
    { st with read := ⟨st.dirty, false⟩, dirty := [], misses := 0 }

/-- Modelled from the spec: the observable `load(k)` of the base map,
which is not among the provided source files.  Consult the read view;
on a miss with `amended` set, consult the dirty view; an entry whose
pointer is `nil` or `expunged` reads as absent. -/
def loadValue (st : MapState K V) (k : K) : Option V :=
  match lookup k st.read.m with
  | some e => pointee (st.heap e)
  | none =>
    if st.read.amended then
      match lookup k st.dirty with
      | some e => pointee (st.heap e)
      | none => none
    else none

/-- Run the sequential `tryCompareAndSwap` body against the entry `e`
of the state's heap, allocating the copy of `new` at the state's fresh
address on success. -/
def tryCasEntry (st : MapState K V) (e : Nat) (old nu : V) :
    Bool × MapState K V :=
  match tryCasSeq old nu st.nextId (st.heap e) with
  | (true, p) =>
    (true, { st with heap := updateHeap st.heap e p, nextId := st.nextId + 1 })
  | (false, _) => (false, st)

/-- Run the sequential `CompareAndDelete` loop against the entry `e` of
the state's heap. -/
def cadEntry (st : MapState K V) (e : Nat) (old : V) : Bool × MapState K V :=
  match cadSeq old (st.heap e) with
  | (true, p) => (true, { st with heap := updateHeap st.heap e p })
  | (false, _) => (false, st)

/-- Translation of `CasMap.CompareAndSwap` from the source: fast path
on a read-view hit; return false when the key is absent and the read
view is not amended; otherwise lock, re-check the read view, then try
the dirty view, recording a miss via `missLocked` in the dirty-hit
branch; return false when the key is in neither view. -/
def CompareAndSwap (st : MapState K V) (k : K) (old nu : V) :
    Bool × MapState K V :=
  match lookup k st.read.m with
  | some e => tryCasEntry st e old nu
  | none =>
    if st.read.amended = false then (false, st)
    else
      let st1 := lock st
      match lookup k st1.read.m with
      | some e => tryCasEntry st1 e old nu
      | none =>
        match lookup k st1.dirty with
        | some e =>
          let r := tryCasEntry st1 e old nu
          (r.1, missLocked r.2)
        | none => (false, st1)

/-- Translation of `CasMap.CompareAndDelete` from the source: look the
entry up in the read view; on a miss with `amended` set, lock, re-check
the read view, and if still missing and still amended look in the dirty
view (without deleting from it) and record a miss via `missLocked`
regardless of whether the entry was present; then, when an entry was
found, run the delete loop on it; otherwise return false. -/
def CompareAndDelete (st : MapState K V) (k : K) (old : V) :
    Bool × MapState K V :=
  match lookup k st.read.m with
  | some e => cadEntry st e old
  | none =>
    if st.read.amended = true then
      let st1 := lock st
      match lookup k st1.read.m with
      | some e => cadEntry st1 e old
      | none =>
        if st1.read.amended = true then
          let eo := lookup k st1.dirty
          let st2 := missLocked st1
          match eo with
          | some e => cadEntry st2 e old
          | none => (false, st2)
        else (false, st1)
    else (false, st)

/-- Translation of `Map.Clear` from the source: when the read view is
empty and not amended, return immediately; otherwise lock, re-load the
read view, publish a fresh empty read view when it is still non-empty
or amended, then empty the dirty view in place and reset `misses`. -/
def Clear (st : MapState K V) : MapState K V :=
  if st.read.m.length = 0 ∧ st.read.amended = false then st
  else
    let st1 := lock st
    let st2 :=
      if 0 < st1.read.m.length ∨ st1.read.amended = true then
        { st1 with read := ⟨[], false⟩ }
      else st1
    { st2 with dirty := [], misses := 0 }

/-- Entry location for `compare_and_delete` as worded by the claim:
read-view fast path, or — under the mutex, when the read view is
amended — the read view again and then the dirty view. -/
def locateEntry (st : MapState K V) (k : K) : Option Nat :=
  match lookup k st.read.m with
  | some e => some e
  | none =>
    if st.read.amended = true then
      match lookup k st.read.m with
      | some e => some e
      | none =>
        if st.read.amended = true then lookup k st.dirty else none
    else none

/-- Compare-and-delete as worded by the claim, projected to its return
value and entry-heap effect: locate the entry, and with the entry in
hand run the delete loop (sequentially: load, validate against `old`,
CAS to `nil`); when no entry is found, return false and leave every
entry unchanged. -/
def compareAndDeleteSpec (st : MapState K V) (k : K) (old : V) :
    Bool × (Nat → Ptr V) :=
  match locateEntry st k with
  | none => (false, st.heap)
  | some e =>
    match cadSeq old (st.heap e) with
    | (true, p) => (true, updateHeap st.heap e p)
    | (false, _) => (false, st.heap)

/-- Empty map over `Nat` keys and values: both views empty, nothing
published. -/
def stEmpty : MapState Nat Nat :=
  ⟨⟨[], false⟩, [], 0, fun _ => Ptr.null, 0, 0⟩

/-- Map holding key 1 with value 5 in the read view (entry 0, value
stored at address 3). -/
def stOne : MapState Nat Nat :=
  ⟨⟨[(1, 0)], false⟩, [], 0, fun _ => Ptr.node 3 5, 4, 0⟩

/-- Map holding key 1 with value 9 in the read view (entry 0, value
stored at address 2). -/
def stRead9 : MapState Nat Nat :=
  ⟨⟨[(1, 0)], false⟩, [], 0, fun _ => Ptr.node 2 9, 3, 0⟩

/-- Amended map whose read view is empty and whose dirty view holds key
1 at entry 0 with value 5. -/
def stDirty5 : MapState Nat Nat :=
  ⟨⟨[], true⟩, [(1, 0)], 0, fun _ => Ptr.node 2 5, 3, 0⟩

/-- Amended map whose dirty view holds only key 1 (entry 0, value 42)
with `misses = 0`, so that one further miss triggers promotion. -/
def stPromote : MapState Nat Nat :=
  ⟨⟨[], true⟩, [(1, 0)], 0, fun _ => Ptr.node 7 42, 8, 0⟩

/-- Amended map whose dirty view holds keys 1 and 2 with `misses = 0`,
so that one further miss does not yet trigger promotion. -/
def stTwoDirty : MapState Nat Nat :=
  ⟨⟨[], true⟩, [(1, 0), (2, 1)], 0, fun _ => Ptr.node 3 9, 4, 0⟩

section Lemmas

/-- Induction on lists taking two elements at a time, matching the slot
consumption of the CAS retry loops. -/
theorem twoStepList {α : Type} {motive : List α → Prop} (h0 : motive [])
    (h1 : ∀ a, motive [a])
    (h2 : ∀ a b l, motive l → motive (a :: b :: l)) : ∀ l, motive l
  | [] => h0
  | [a] => h1 a
  | a :: b :: l => h2 a b l (twoStepList h0 h1 h2 l)

omit [DecidableEq K] [DecidableEq V] in
theorem lock_read (st : MapState K V) : (lock st).read = st.read := rfl

omit [DecidableEq K] [DecidableEq V] in
theorem lock_dirty (st : MapState K V) : (lock st).dirty = st.dirty := rfl

omit [DecidableEq K] [DecidableEq V] in
theorem lock_misses (st : MapState K V) : (lock st).misses = st.misses := rfl

omit [DecidableEq K] [DecidableEq V] in
theorem lock_heap (st : MapState K V) : (lock st).heap = st.heap := rfl

omit [DecidableEq K] [DecidableEq V] in
theorem missLocked_heap (st : MapState K V) :
    (missLocked st).heap = st.heap := by
  unfold missLocked; split <;> rfl

omit [DecidableEq K] [DecidableEq V] in
theorem missLocked_nextId (st : MapState K V) :
    (missLocked st).nextId = st.nextId := by
  unfold missLocked; split <;> rfl

/-- The source retry loop of `tryCompareAndSwap` agrees with the loop
of the spec's per-entry CAS primitive on every schedule. -/
theorem tcasLoop_eq_specLoop (old : V) (ncPtr : Ptr V) :
    ∀ (sched : List (Option (Ptr V))) (obs cur : Ptr V),
      tcasLoop old ncPtr obs cur sched = tryCasSpecLoop old ncPtr obs cur sched := by
  intro sched
  induction sched using twoStepList with
  | h0 => intro obs cur; rfl
  | h1 w => intro obs cur; rfl
  | h2 w w2 rest ih =>
    intro obs cur
    simp only [tcasLoop, tryCasSpecLoop]
    by_cases hobs : interfere cur w = obs
    · simp [hobs]
    · simp only [if_neg hobs]
      cases hc2 : interfere (interfere cur w) w2 with
      | null => simp [casObserve]
      | expunged => simp [casObserve]
      | node i v =>
        by_cases hv : v = old
        · simp [casObserve, hv, ih]
        · simp [casObserve, hv]

/-- The source delete loop agrees with the spec-worded delete loop on
every schedule. -/
theorem cadLoop_eq_specLoop (old : V) :
    ∀ (sched : List (Option (Ptr V))) (cur : Ptr V),
      cadLoop old cur sched = cadLoopSpec old cur sched := by
  intro sched
  induction sched using twoStepList with
  | h0 => intro cur; rfl
  | h1 w =>
    intro cur
    simp only [cadLoop, cadLoopSpec]
    cases hc : interfere cur w with
    | null => simp [casObserve]
    | expunged => simp [casObserve]
    | node i v =>
      by_cases hv : v = old
      · simp [casObserve, hv]
      · simp [casObserve, hv]
  | h2 w w2 rest ih =>
    intro cur
    simp only [cadLoop, cadLoopSpec]
    cases hc : interfere cur w with
    | null => simp [casObserve]
    | expunged => simp [casObserve]
    | node i v =>
      by_cases hv : v = old
      · simp [casObserve, hv, ih]
      · simp [casObserve, hv]

/-- When the retry loop returns false it has performed no successful
CAS, so the final cell contents are the interference-only evolution of
the consumed schedule prefix. -/
theorem tcasLoop_false_frame (old : V) (ncPtr : Ptr V) :
    ∀ (sched : List (Option (Ptr V))) (obs cur : Ptr V),
      (tcasLoop old ncPtr obs cur sched).res = some false →
      (tcasLoop old ncPtr obs cur sched).ptr
        = applyWrites cur (List.take (tcasLoop old ncPtr obs cur sched).used sched) := by
  intro sched
  induction sched using twoStepList with
  | h0 => intro obs cur h; simp [tcasLoop] at h
  | h1 w =>
    intro obs cur h
    simp only [tcasLoop] at h ⊢
    by_cases hobs : interfere cur w = obs <;> simp [hobs] at h
  | h2 w w2 rest ih =>
    intro obs cur h
    simp only [tcasLoop] at h ⊢
    by_cases hobs : interfere cur w = obs
    · simp [hobs] at h
    · simp only [if_neg hobs] at h ⊢
      cases hc2 : interfere (interfere cur w) w2 with
      | null => simp [hc2, applyWrites] at h ⊢
      | expunged => simp [hc2, applyWrites] at h ⊢
      | node i v =>
        by_cases hv : v = old
        · simp only [hc2, hv, if_pos rfl] at h ⊢
          have := ih (Ptr.node i old) (Ptr.node i old) h
          simpa [applyWrites, hc2, hv] using this
        · simp [hc2, hv, applyWrites] at h ⊢

/-- When the loop returns true, the successful CAS installed the new
storage and, at that instant, the cell held the observed pointer —
whose pointee is `old` — so some observed state carries `old`. -/
theorem tcasLoop_true_observed (old : V) (ncPtr : Ptr V) :
    ∀ (sched : List (Option (Ptr V))) (cur : Ptr V) (i0 : Nat),
      (tcasLoop old ncPtr (Ptr.node i0 old) cur sched).res = some true →
      (tcasLoop old ncPtr (Ptr.node i0 old) cur sched).ptr = ncPtr
        ∧ ∃ i, Ptr.node i old ∈ obsStates cur sched := by
  intro sched
  induction sched using twoStepList with
  | h0 => intro cur i0 h; simp [tcasLoop] at h
  | h1 w =>
    intro cur i0 h
    simp only [tcasLoop] at h ⊢
    by_cases hobs : interfere cur w = Ptr.node i0 old
    · simp only [if_pos hobs]
      exact ⟨by simp, ⟨i0, by simp [obsStates, hobs]⟩⟩
    · simp [hobs] at h
  | h2 w w2 rest ih =>
    intro cur i0 h
    simp only [tcasLoop] at h ⊢
    by_cases hobs : interfere cur w = Ptr.node i0 old
    · simp only [if_pos hobs]
      exact ⟨by simp, ⟨i0, by simp [obsStates, hobs]⟩⟩
    · simp only [if_neg hobs] at h ⊢
      cases hc2 : interfere (interfere cur w) w2 with
      | null => simp [hc2] at h
      | expunged => simp [hc2] at h
      | node i v =>
        by_cases hv : v = old
        · subst hv
          simp only [hc2, if_pos rfl] at h ⊢
          obtain ⟨hp, j, hj⟩ := ih (Ptr.node i v) i h
          exact ⟨hp, ⟨j, by simp [obsStates, hc2, hj]⟩⟩
        · simp [hc2, hv] at h

omit [DecidableEq K] in
/-- A true return of the sequential entry CAS requires the entry to
hold a valid pointer whose pointee is `old`. -/
theorem tryCasEntry_true_heap (st : MapState K V) (e : Nat) (old nu : V)
    (h : (tryCasEntry st e old nu).1 = true) :
    ∃ i, st.heap e = Ptr.node i old := by
  unfold tryCasEntry tryCasSeq at h
  cases hh : st.heap e with
  | null => rw [hh] at h; simp at h
  | expunged => rw [hh] at h; simp at h
  | node i v =>
    rw [hh] at h
    by_cases hv : v = old
    · subst hv; exact ⟨i, rfl⟩
    · simp [hv] at h

omit [DecidableEq K] in
/-- Effect of the sequential entry CAS on a hit: the entry receives a
fresh pointer to `new` and the fresh-address counter advances. -/
theorem tryCasEntry_hit (st : MapState K V) (e : Nat) (i : Nat) (old nu : V)
    (h : st.heap e = Ptr.node i old) :
    tryCasEntry st e old nu
      = (true,
          { st with
              heap := updateHeap st.heap e (Ptr.node st.nextId nu)
              nextId := st.nextId + 1 }) := by
  simp [tryCasEntry, tryCasSeq, h]

end Lemmas

/-- Claim C2: `CompareAndDelete(k, old)` locates the entry for `k` (via
the read-view fast path, or under the mutex via the read view then the
dirty view when amended) and then, with the entry in hand, loops: load
the pointer; if `nil` or `expunged`, return false; if the pointee is
unequal to `old`, return false; otherwise CAS the pointer from the
observed value to `nil`, returning true on success and retrying on
failure; when no entry is found it returns false.  Stated as: the
source translation agrees with the claim-worded operation in return
value and entry-heap effect, and the source delete loop agrees with the
claim-worded loop on every interference schedule. -/
theorem compareAndDelete_follows_spec :
    (∀ (st : MapState K V) (k : K) (old : V),
        (CompareAndDelete st k old).1 = (compareAndDeleteSpec st k old).1
          ∧ (CompareAndDelete st k old).2.heap = (compareAndDeleteSpec st k old).2)
    ∧ (∀ (old : V) (cur : Ptr V) (sched : List (Option (Ptr V))),
        cadLoop old cur sched = cadLoopSpec old cur sched) := by
  constructor
  · intro st k old
    simp only [CompareAndDelete, compareAndDeleteSpec, locateEntry]
    cases h1 : lookup k st.read.m with
    | some e =>
      simp only [cadEntry]
      cases h2 : cadSeq old (st.heap e) with
      | mk b p => cases b <;> simp
    | none =>
      cases ham : st.read.amended with
      | false => simp
      | true =>
        simp only [lock_read, lock_dirty, lock_heap, h1, ham, if_true]
        cases h3 : lookup k st.dirty with
        | some e =>
          simp only [cadEntry, missLocked_heap, lock_heap]
          cases h2 : cadSeq old (st.heap e) with
          | mk b p => cases b <;> simp [missLocked_heap, lock_heap]
        | none => simp [missLocked_heap, lock_heap]
  · intro old cur sched
    exact cadLoop_eq_specLoop old sched cur

/-- Claim C1: for every entry and every pair of values `old` and `new`,
the per-entry primitive `tryCompareAndSwap(old, new)` follows exactly
the spec's steps: atomically load the entry pointer and return false if
it is `nil` or `expunged`; return false if the pointee is unequal to
`old`; otherwise attempt a CAS from the observed pointer to a pointer
to `new`, returning true on success; on CAS failure re-load, return
false if the pointer is now `nil`/`expunged` or the pointee is unequal
to `old`, and otherwise retry the CAS.  Stated as: the source
translation and the spec-worded primitive agree on every initial cell
state and every interference schedule. -/
theorem tryCompareAndSwap_follows_spec (old nu : V) (ncId : Nat)
    (cur : Ptr V) (sched : List (Option (Ptr V))) :
    tryCompareAndSwap old nu ncId cur sched = tryCasSpec old nu ncId cur sched := by
  cases sched with
  | nil => rfl
  | cons w rest =>
    simp only [tryCompareAndSwap, tryCasSpec]
    cases hc : interfere cur w with
    | null => simp [casObserve]
    | expunged => simp [casObserve]
    | node i v =>
      by_cases hv : v = old
      · simp [casObserve, hv, tcasLoop_eq_specLoop]
      · simp [casObserve, hv]

/-- Claim C9: whenever `tryCompareAndSwap(old, new)` returns false —
because the entry pointer was `nil` or `expunged`, or because the
current value was unequal to `old` — it has performed no store to the
entry: the final cell contents equal the interference-only evolution of
the consumed schedule prefix, i.e. on false the call mutates
nothing. -/
theorem tcas_false_mutates_nothing (old nu : V) (ncId : Nat)
    (cur : Ptr V) (sched : List (Option (Ptr V)))
    (h : (tryCompareAndSwap old nu ncId cur sched).res = some false) :
    (tryCompareAndSwap old nu ncId cur sched).ptr
      = applyWrites cur (List.take (tryCompareAndSwap old nu ncId cur sched).used sched) := by
  cases sched with
  | nil => simp [tryCompareAndSwap] at h
  | cons w rest =>
    simp only [tryCompareAndSwap] at h ⊢
    cases hc : interfere cur w with
    | null => simp [hc, applyWrites] at h ⊢
    | expunged => simp [hc, applyWrites] at h ⊢
    | node i v =>
      by_cases hv : v = old
      · simp only [hc, hv, if_pos rfl] at h ⊢
        have := tcasLoop_false_frame old (Ptr.node ncId nu) rest
          (Ptr.node i old) (Ptr.node i old) h
        simpa [applyWrites, hc, hv] using this
      · simp [hc, hv, applyWrites] at h ⊢

/-- Witness for claim C9 at a concrete input: a cell holding value 3 is
compared against `old = 5`, the call returns false, and the cell is
left exactly as interference alone (here: none) would leave it. -/
theorem tcas_false_mutates_nothing_witness :
    (tryCompareAndSwap 5 7 9 (Ptr.node 0 3) ([none] : List (Option (Ptr Nat)))).ptr
      = applyWrites (Ptr.node 0 3)
          (List.take (tryCompareAndSwap 5 7 9 (Ptr.node 0 3)
            ([none] : List (Option (Ptr Nat)))).used ([none] : List (Option (Ptr Nat)))) :=
  tcas_false_mutates_nothing 5 7 9 (Ptr.node 0 3) [none] (by decide)

/-- Claim C4: `CompareAndSwap(k, old, new)` returns true only if, at
some instant during its execution, the entry for `k` held a value equal
to `old`, and upon returning true the entry for `k` holds `new`.  At
map level (sequential embedding): return true implies the map held
`old` at `k` before the call and holds `new` at `k` after it.  At entry
level, under every interference schedule: a true return of
`tryCompareAndSwap` implies the cell ends holding the pointer to `new`
and that at some observed instant it held a pointer whose pointee was
`old`. -/
theorem cas_true_held_old_then_new :
    (∀ (st : MapState K V) (k : K) (old nu : V),
        (CompareAndSwap st k old nu).1 = true →
          loadValue st k = some old
            ∧ loadValue (CompareAndSwap st k old nu).2 k = some nu)
    ∧ (∀ (old nu : V) (ncId : Nat) (cur : Ptr V) (sched : List (Option (Ptr V))),
        (tryCompareAndSwap old nu ncId cur sched).res = some true →
          (tryCompareAndSwap old nu ncId cur sched).ptr = Ptr.node ncId nu
            ∧ ∃ i, Ptr.node i old ∈ obsStates cur sched) := by
  constructor
  · intro st k old nu h
    simp only [CompareAndSwap] at h ⊢
    cases h1 : lookup k st.read.m with
    | some e =>
      simp only [h1] at h ⊢
      obtain ⟨i, hheap⟩ := tryCasEntry_true_heap st e old nu h
      rw [tryCasEntry_hit st e i old nu hheap]
      constructor
      · simp [loadValue, h1, hheap, pointee]
      · simp [loadValue, h1, pointee, updateHeap]
    | none =>
      cases ham : st.read.amended with
      | false => simp [h1, ham] at h
      | true =>
        simp only [h1, ham, lock_read, lock_dirty] at h ⊢
        rw [if_neg (by simp)] at h
        rw [if_neg (by simp)]
        cases h3 : lookup k st.dirty with
        | some e =>
          simp only [h3] at h ⊢
          obtain ⟨i, hheap'⟩ := tryCasEntry_true_heap (lock st) e old nu h
          have hheap : st.heap e = Ptr.node i old := hheap'
          rw [tryCasEntry_hit (lock st) e i old nu hheap']
          constructor
          · simp [loadValue, h1, ham, h3, hheap, pointee]
          · simp only [missLocked]
            split
            · simp [loadValue, lock, h1, ham, h3, pointee, updateHeap]
            · simp [loadValue, lock, h3, pointee, updateHeap]
        | none => simp [h3] at h
  · intro old nu ncId cur sched h
    cases sched with
    | nil => simp [tryCompareAndSwap] at h
    | cons w rest =>
      simp only [tryCompareAndSwap] at h ⊢
      cases hc : interfere cur w with
      | null => simp [hc] at h
      | expunged => simp [hc] at h
      | node i v =>
        by_cases hv : v = old
        · subst hv
          simp only [hc, if_pos rfl] at h ⊢
          obtain ⟨hp, j, hj⟩ :=
            tcasLoop_true_observed v (Ptr.node ncId nu) rest (Ptr.node i v) i h
          exact ⟨hp, ⟨j, by simp [obsStates, hc, hj]⟩⟩
        · simp [hc, hv] at h

/-- Witness for claim C4 at concrete inputs: swapping 5 for 7 at key 1
of `stOne` succeeds, the map held 5 before and 7 after; and an
entry-level run on a cell holding 5 succeeds, installs the new pointer,
and observed a state with pointee 5. -/
theorem cas_true_held_old_then_new_witness :
    (loadValue stOne 1 = some 5 ∧ loadValue (CompareAndSwap stOne 1 5 7).2 1 = some 7)
    ∧ ((tryCompareAndSwap 5 7 9 (Ptr.node 0 5)
          ([none, none] : List (Option (Ptr Nat)))).ptr = Ptr.node 9 7
        ∧ ∃ i, Ptr.node i 5 ∈ obsStates (Ptr.node 0 5)
            ([none, none] : List (Option (Ptr Nat)))) :=
  ⟨(cas_true_held_old_then_new (K := Nat) (V := Nat)).1 stOne 1 5 7 (by decide),
   (cas_true_held_old_then_new (K := Nat) (V := Nat)).2 5 7 9 (Ptr.node 0 5)
     [none, none] (by decide)⟩

/-- Claim C3: for every key `k` absent from the map (in particular on
an empty map) and all values `old`, `new`, `CompareAndSwap(k, old, new)`
returns false unconditionally — even when `old` is the default value —
and when `k` is absent from the read view and the read view is not
amended, it returns false without acquiring the mutex (the state,
including the ghost mutex-acquisition counter, is untouched). -/
theorem cas_absent_returns_false (st : MapState K V) (k : K) (old nu : V)
    (h : loadValue st k = none) :
    (CompareAndSwap st k old nu).1 = false
    ∧ (lookup k st.read.m = none → st.read.amended = false →
        CompareAndSwap st k old nu = (false, st)) := by
  constructor
  · simp only [CompareAndSwap]
    cases h1 : lookup k st.read.m with
    | some e =>
      simp only [loadValue, h1] at h
      cases hh : st.heap e with
      | null => simp [tryCasEntry, tryCasSeq, hh]
      | expunged => simp [tryCasEntry, tryCasSeq, hh]
      | node i v => rw [hh] at h; simp [pointee] at h
    | none =>
      cases ham : st.read.amended with
      | false => simp
      | true =>
        simp only [ham, lock_read, lock_dirty]
        rw [if_neg (by simp)]
        rw [h1]
        cases h3 : lookup k st.dirty with
        | some e =>
          simp only [loadValue, h1, ham, if_true, h3] at h
          cases hh : st.heap e with
          | null => simp [h3, tryCasEntry, tryCasSeq, lock, hh]
          | expunged => simp [h3, tryCasEntry, tryCasSeq, lock, hh]
          | node i v => rw [hh] at h; simp [pointee] at h
        | none => simp [h3]
  · intro h1 ham
    simp [CompareAndSwap, h1, ham]

/-- Witness for claim C3 at a concrete input: on the empty map,
`CompareAndSwap(1, 0, 0)` — with `old` the default value 0 — returns
false and leaves the state untouched. -/
theorem cas_absent_returns_false_witness :
    (CompareAndSwap stEmpty 1 0 0).1 = false
    ∧ CompareAndSwap stEmpty 1 0 0 = (false, stEmpty) :=
  ⟨(cas_absent_returns_false stEmpty 1 0 0 rfl).1,
   (cas_absent_returns_false stEmpty 1 0 0 rfl).2 rfl rfl⟩

omit [DecidableEq K] [DecidableEq V] in
/-- Claim C5: for every map state in which the read view is non-empty
or amended, `Clear()` leaves the map with a published empty read view
whose `amended` flag is false, an emptied dirty view, and `misses`
equal to 0 — in particular both views are empty afterwards. -/
theorem clear_nonempty_resets (st : MapState K V)
    (h : st.read.m ≠ [] ∨ st.read.amended = true) :
    (Clear st).read = ⟨[], false⟩ ∧ (Clear st).dirty = []
      ∧ (Clear st).misses = 0 := by
  unfold Clear
  rw [if_neg ?hc]
  case hc =>
    rcases h with h | h
    · rintro ⟨hl, -⟩; exact h (List.eq_nil_of_length_eq_zero hl)
    · rintro ⟨-, ha⟩; rw [h] at ha; exact Bool.noConfusion ha
  have hp : 0 < st.read.m.length ∨ st.read.amended = true := by
    rcases h with h | h
    · exact Or.inl (List.length_pos.mpr h)
    · exact Or.inr h
  simp [lock, hp]

/-- Witness for claim C5 at a concrete input: clearing a map whose read
view holds one key yields empty read and dirty views and zero
misses. -/
theorem clear_nonempty_resets_witness :
    (Clear stRead9).read = ⟨[], false⟩ ∧ (Clear stRead9).dirty = []
      ∧ (Clear stRead9).misses = 0 :=
  clear_nonempty_resets stRead9 (Or.inl (by decide))

omit [DecidableEq K] [DecidableEq V] in
/-- Claim C6: for every map state in which the read view is empty and
not amended, `Clear()` is a no-op: it returns without modifying any of
the map's state — so no new read view is published and nothing is
allocated. -/
theorem clear_empty_noop (st : MapState K V)
    (h1 : st.read.m = []) (h2 : st.read.amended = false) :
    Clear st = st := by
  unfold Clear
  rw [if_pos ⟨by simp [h1], h2⟩]

/-- Witness for claim C6 at a concrete input: clearing the
already-empty map returns the state unchanged. -/
theorem clear_empty_noop_witness : Clear stEmpty = stEmpty :=
  clear_empty_noop stEmpty rfl rfl

/-- Claim C7: when `CompareAndSwap(k, old, new)` takes the slow path
under the mutex (key absent from the read view, read view amended) and
finds the entry in the dirty view, the final state is `missLocked`
applied exactly once to the post-CAS state — exactly one miss is
recorded; when it finds no entry, it returns false and the `misses`
counter is unchanged. -/
theorem cas_slow_path_misses (st : MapState K V) (k : K) (old nu : V)
    (h1 : lookup k st.read.m = none) (h2 : st.read.amended = true) :
    (∀ e, lookup k st.dirty = some e →
        CompareAndSwap st k old nu
          = ((tryCasEntry (lock st) e old nu).1,
             missLocked (tryCasEntry (lock st) e old nu).2))
    ∧ (lookup k st.dirty = none →
        CompareAndSwap st k old nu = (false, lock st)
          ∧ (CompareAndSwap st k old nu).2.misses = st.misses) := by
  constructor
  · intro e h3
    simp [CompareAndSwap, h1, h2, h3, lock_read, lock_dirty]
  · intro h3
    refine ⟨by simp [CompareAndSwap, h1, h2, h3, lock_read, lock_dirty], ?_⟩
    simp [CompareAndSwap, h1, h2, h3, lock_read, lock_dirty, lock]

/-- Witness for claim C7 at a concrete input: on an amended map whose
dirty view holds key 1, the slow path of `CompareAndSwap(1, 5, 7)`
applies `missLocked` exactly once to the post-CAS state. -/
theorem cas_slow_path_misses_witness :
    CompareAndSwap stDirty5 1 5 7
      = ((tryCasEntry (lock stDirty5) 0 5 7).1,
         missLocked (tryCasEntry (lock stDirty5) 0 5 7).2) :=
  (cas_slow_path_misses stDirty5 1 5 7 rfl rfl).1 0 rfl

/-- Counterexample to claim C10 as stated: on `stPromote` (amended,
dirty view holding exactly key 1, `misses = 0`), `CompareAndDelete(1, 42)`
returns true, yet key 1 is no longer present in the dirty view — the
miss recorded by the call itself triggered promotion, which emptied the
dirty view — and `misses` ends at 0, not incremented. -/
theorem cad_keeps_dirty_key_cex :
    (CompareAndDelete stPromote 1 42).1 = true
    ∧ lookup 1 (CompareAndDelete stPromote 1 42).2.dirty = none
    ∧ (CompareAndDelete stPromote 1 42).2.misses = 0 := by decide

/-- Claim C10 amended: `CompareAndDelete` itself never deletes the key
from the dirty view, and it records a miss via `missLocked` whenever it
consults the dirty view under the mutex — regardless of whether the
key was present there — but that `missLocked` call may itself promote
the dirty view, emptying it.  When the recorded miss does not trigger
promotion: the dirty view and read view are unchanged and `misses` is
incremented by exactly one, whether or not the key was in the dirty
view; when the key was present, a true return leaves the entry in the
dirty view holding `nil`; when it was absent, the call returns false
and no entry is touched. -/
theorem cad_dirty_frame_no_promotion (st : MapState K V) (k : K) (old : V)
    (h1 : lookup k st.read.m = none) (h2 : st.read.amended = true)
    (h4 : st.misses + 1 < st.dirty.length) :
    (CompareAndDelete st k old).2.dirty = st.dirty
    ∧ (CompareAndDelete st k old).2.misses = st.misses + 1
    ∧ (CompareAndDelete st k old).2.read = st.read
    ∧ (∀ e, lookup k st.dirty = some e →
        (CompareAndDelete st k old).1 = true →
          (CompareAndDelete st k old).2.heap e = Ptr.null
            ∧ lookup k (CompareAndDelete st k old).2.dirty = some e)
    ∧ (lookup k st.dirty = none →
        (CompareAndDelete st k old).1 = false
          ∧ (CompareAndDelete st k old).2.heap = st.heap) := by
  have hm : missLocked (lock st) = { lock st with misses := st.misses + 1 } := by
    have h4' : (lock st).misses + 1 < (lock st).dirty.length := h4
    unfold missLocked
    rw [if_pos h4']
    rfl
  cases h3 : lookup k st.dirty with
  | some e =>
    simp only [CompareAndDelete, h1, h2, lock_read, lock_dirty, if_pos, if_true, h3, hm]
    cases hh : st.heap e with
    | null => simp [cadEntry, cadSeq, lock, hh]
    | expunged => simp [cadEntry, cadSeq, lock, hh]
    | node i v =>
      by_cases hv : v = old
      · simp [cadEntry, cadSeq, lock, hh, hv, updateHeap, h3]
      · simp [cadEntry, cadSeq, lock, hh, hv]
  | none =>
    simp only [CompareAndDelete, h1, h2, lock_read, lock_dirty, if_pos, if_true, h3, hm]
    simp [lock]

/-- Witness for the amended claim C10 at concrete inputs, covering both
dirty-consult cases on a map with two dirty keys and `misses = 0`.
Present key: deleting key 1 with matching value 9 succeeds, leaves both
views untouched, increments `misses` to 1, and key 1 stays in the dirty
view with its entry pointer `nil`.  Absent key: deleting key 5 returns
false, yet `misses` is still incremented to 1 and no entry changes. -/
theorem cad_dirty_frame_no_promotion_witness :
    ((CompareAndDelete stTwoDirty 1 9).2.dirty = stTwoDirty.dirty
      ∧ (CompareAndDelete stTwoDirty 1 9).2.misses = stTwoDirty.misses + 1
      ∧ (CompareAndDelete stTwoDirty 1 9).2.read = stTwoDirty.read
      ∧ ((CompareAndDelete stTwoDirty 1 9).2.heap 0 = Ptr.null
          ∧ lookup 1 (CompareAndDelete stTwoDirty 1 9).2.dirty = some 0))
    ∧ ((CompareAndDelete stTwoDirty 5 9).2.misses = stTwoDirty.misses + 1
        ∧ (CompareAndDelete stTwoDirty 5 9).1 = false
        ∧ (CompareAndDelete stTwoDirty 5 9).2.heap = stTwoDirty.heap) := by
  have t := cad_dirty_frame_no_promotion stTwoDirty 1 9 rfl rfl (by decide)
  have t2 := cad_dirty_frame_no_promotion stTwoDirty 5 9 rfl rfl (by decide)
  exact ⟨⟨t.1, t.2.1, t.2.2.1, t.2.2.2.1 0 rfl (by decide)⟩,
         ⟨t2.2.1, (t2.2.2.2.2 rfl).1, (t2.2.2.2.2 rfl).2⟩⟩

end SyncMap
